import Mathlib

/-!
Shallow embedding of the workflow definition validator
(`src/lib/workflows/workflow-validator.ts`) of the workflow-cluster
repository, together with proofs of the specified properties.

The validator is a multi-pass static analyzer over a parsed JSON/YAML
workflow document: a structural schema pass (a hard gate), a capability
path pass against a module registry, a dataflow pass over template
variable references, and an output display compatibility pass.

JavaScript values reaching the validator are modelled by `JsonVal`;
`JSON.stringify` is modelled by `JsonVal.stringify`; the template
reference regex `/\x7b\x7b(\w+)(?:\.\w+)*(?:\[\d+\])*\x7d\x7d/g`
is modelled by `extractTemplateRefs`.
-/

set_option maxRecDepth 4096

/-- A parsed JSON value (the TypeScript `unknown` reaching the validator). -/
inductive JsonVal where
  | null : JsonVal
  | bool (b : Bool) : JsonVal
  | num (n : Int) : JsonVal
  | str (s : String) : JsonVal
  | arr (xs : List JsonVal) : JsonVal
  | obj (fields : List (String × JsonVal)) : JsonVal

/-- Lower-case hex digit, for JSON control-character escapes. -/
def hexDigit (n : Nat) : Char :=
  if n < 10 then Char.ofNat (48 + n) else Char.ofNat (87 + n)

/-- Escaping of a single character inside a JSON string literal,
as performed by JavaScript `JSON.stringify`. -/
def escapeJsonChar (c : Char) : List Char :=
  if c == '"' then ['\\', '"']
  else if c == '\\' then ['\\', '\\']
  else if c == '\n' then ['\\', 'n']
  else if c == '\r' then ['\\', 'r']
  else if c == '\t' then ['\\', 't']
  else if c == '\x08' then ['\\', 'b']
  else if c == '\x0c' then ['\\', 'f']
  else if c.toNat < 32 then ['\\', 'u', '0', '0', hexDigit (c.toNat / 16), hexDigit (c.toNat % 16)]
  else [c]

/-- JSON string-content escaping (`JSON.stringify` on the characters of a string). -/
def jsonEscape (s : String) : String :=
  (s.data.flatMap escapeJsonChar).asString

mutual

/-- `JSON.stringify` on a JSON value (compact form, as in JavaScript). -/
def JsonVal.stringify : JsonVal → String
  | .null => "null"
  | .bool true => "true"
  | .bool false => "false"
  | .num n => toString n
  | .str s => "\"" ++ jsonEscape s ++ "\""
  | .arr xs => "[" ++ JsonVal.stringifyList xs ++ "]"
  | .obj fs => "\x7b" ++ JsonVal.stringifyObj fs ++ "\x7d"

/-- Comma-separated serialization of array elements. -/
def JsonVal.stringifyList : List JsonVal → String
  | [] => ""
  | [x] => x.stringify
  | x :: y :: rest => x.stringify ++ "," ++ JsonVal.stringifyList (y :: rest)

/-- Comma-separated serialization of object fields. -/
def JsonVal.stringifyObj : List (String × JsonVal) → String
  | [] => ""
  | [(k, v)] => "\"" ++ jsonEscape k ++ "\":" ++ v.stringify
  | (k, v) :: f :: rest =>
    "\"" ++ jsonEscape k ++ "\":" ++ v.stringify ++ "," ++ JsonVal.stringifyObj (f :: rest)

end

/-- Field lookup on a JSON object (first occurrence, as in a JS object). -/
def JsonVal.lookupField (j : JsonVal) (key : String) : Option JsonVal :=
  match j with
  | .obj fs => fs.lookup key
  | _ => none

/-- A word character of the JavaScript regex class `\w`: `[A-Za-z0-9_]`. -/
def isWordChar (c : Char) : Bool := c.isAlphanum || c == '_'

/-- Greedy run of the regex fragment `(?:\.\w+)*`: returns the consumed
characters and the remainder.  Fuel-based so that it is structural and
evaluates in the kernel; fuel at least the list length is always enough. -/
def dottedRun : Nat → List Char → List Char × List Char
  | 0, cs => ([], cs)
  | fuel + 1, cs =>
    match cs with
    | c :: rest =>
      if c == '.' then
        let w := rest.takeWhile isWordChar
        if w.isEmpty then ([], c :: rest)
        else
          let p := dottedRun fuel (rest.dropWhile isWordChar)
          ('.' :: (w ++ p.1), p.2)
      else ([], c :: rest)
    | [] => ([], [])

/-- Greedy run of the regex fragment `(?:\[\d+\])*`. -/
def bracketRun : Nat → List Char → List Char × List Char
  | 0, cs => ([], cs)
  | fuel + 1, cs =>
    match cs with
    | c :: rest =>
      if c == '[' then
        let ds := rest.takeWhile Char.isDigit
        if ds.isEmpty then ([], c :: rest)
        else
          match rest.dropWhile Char.isDigit with
          | c2 :: r2 =>
            if c2 == ']' then
              let p := bracketRun fuel r2
              ('[' :: (ds ++ ']' :: p.1), p.2)
            else ([], c :: rest)
          | [] => ([], c :: rest)
      else ([], c :: rest)
    | [] => ([], [])

/-- Attempt to match the template regex
`\x7b\x7b(\w+)(?:\.\w+)*(?:\[\d+\])*\x7d\x7d` at the start of the list.
On success, returns the captured identifier (the `\w+` group) and the
remainder after the whole match.  For this particular pattern, greedy
matching without backtracking coincides with JavaScript regex semantics:
every position at which a quantified group could backtrack demands a
non-word character (`.`, `[`, `\x7d`) where backtracking would place a
word character or digit. -/
def matchTemplateAt : List Char → Option (List Char × List Char)
  | c1 :: c2 :: rest =>
    if c1 == '\x7b' && c2 == '\x7b' then
      let w := rest.takeWhile isWordChar
      if w.isEmpty then none
      else
        let r1 := rest.dropWhile isWordChar
        let p1 := dottedRun r1.length r1
        let p2 := bracketRun p1.2.length p1.2
        match p2.2 with
        | d1 :: d2 :: r4 => if d1 == '\x7d' && d2 == '\x7d' then some (w, r4) else none
        | _ => none
    else none
  | _ => none

/-- The scan of `String.prototype.match` with the `g` flag: find the
leftmost match, record its captured identifier, and continue after the
match.  Fuel decreases on every step while the position advances by at
least one character, so fuel equal to the list length is sufficient. -/
def scanTemplatesGo : Nat → List Char → List String
  | 0, _ => []
  | _ + 1, [] => []
  | fuel + 1, c :: rest =>
    match matchTemplateAt (c :: rest) with
    | some (w, r4) => w.asString :: scanTemplatesGo fuel r4
    | none => scanTemplatesGo fuel rest

/-- All template variable identifiers extracted from a string, in order:
the model of `inputsStr.match(regex) || []` followed by taking each
match's leading `\w+` capture. -/
def extractTemplateRefs (s : String) : List String :=
  scanTemplatesGo s.data.length s.data

/-- One formatted validation error (the `ValidationError` interface). -/
structure ValidationError where
  path : String
  message : String
  keyword : String
  suggestion : Option String
deriving DecidableEq, Repr

/-- The result of one validation pass (the `ValidationResult` interface). -/
structure ValidationResult where
  valid : Bool
  errors : List ValidationError
deriving DecidableEq, Repr

/-- One workflow step as consumed by the validator passes. -/
structure Step where
  id : String
  module : String
  inputs : List (String × JsonVal)
  outputAs : Option String

/-- A function entry of the module registry (only its name is consulted). -/
structure RegistryFunction where
  name : String
deriving DecidableEq, Repr

/-- A module entry of the module registry. -/
structure RegistryModule where
  name : String
  functions : List RegistryFunction
deriving DecidableEq, Repr

/-- A category entry of the module registry. -/
structure RegistryCategory where
  name : String
  modules : List RegistryModule
deriving DecidableEq, Repr

/-- The module registry snapshot returned by `getModuleRegistry()`
(an external collaborator; the validator only reads it). -/
abbrev Registry := List RegistryCategory

/-- A trigger as consumed by `validateTrigger`. -/
structure Trigger where
  type : String
  config : List (String × JsonVal)

/-- A table column of an output display descriptor. -/
structure TableColumn where
  key : String
  label : String

/-- An output display descriptor as consumed by `validateOutputDisplay`. -/
structure OutputDisplay where
  type : String
  columns : Option (List TableColumn)

/-- The model of `String.prototype.split` with a single-character
separator: splitting never yields an empty list (splitting the empty
string gives `[""]`), and separators at the edges produce empty segments,
as in JavaScript.  Defined over character lists so that it evaluates in
the kernel. -/
def splitCharsOn (sep : Char) : List Char → List (List Char)
  | [] => [[]]
  | c :: rest =>
    let r := splitCharsOn sep rest
    if c == sep then [] :: r
    else
      match r with
      | seg :: segs => (c :: seg) :: segs
      | [] => [[c]]

/-- `step.module.split('.')` of the source. -/
def jsSplitDot (s : String) : List String :=
  (splitCharsOn '.' s.data).map List.asString

/-- The set of fully qualified `category.module.function` paths present in
the registry (the `validPaths` set built by `validateModulePaths`). -/
def validPaths (registry : Registry) : List String :=
  registry.flatMap fun c =>
    c.modules.flatMap fun m =>
      m.functions.map fun f => c.name ++ "." ++ m.name ++ "." ++ f.name

/-- JavaScript string interpolation of a possibly-`undefined` value. -/
def jsShowOpt : Option String → String
  | some s => s
  | none => "undefined"

/-- The single error pushed by `validateModulePaths` for a step whose
module path is not in the registry, including the graduated suggestion. -/
def stepModuleError (registry : Registry) (step : Step) : ValidationError :=
  let parts := jsSplitDot step.module
  let categoryName := parts.headD ""
  let moduleName := parts[1]?
  let suggestion :=
    match registry.find? (fun c => c.name == categoryName) with
    | none =>
      let availableCategories := String.intercalate ", " (registry.map (·.name))
      "Category \"" ++ categoryName ++ "\" not found. Available: " ++ availableCategories
    | some category =>
      match category.modules.find? (fun m => some m.name == moduleName) with
      | none =>
        let availableModules := String.intercalate ", " (category.modules.map (·.name))
        "Module \"" ++ jsShowOpt moduleName ++ "\" not found in category \"" ++ categoryName ++
          "\". Available: " ++ availableModules
      | some foundModule =>
        let availableFunctions := String.intercalate ", " (foundModule.functions.map (·.name))
        "Function not found in " ++ categoryName ++ "." ++ jsShowOpt moduleName ++
          ". Available: " ++ availableFunctions
  { path := "/config/steps/" ++ step.id ++ "/module",
    message := "Module path \"" ++ step.module ++ "\" not found in registry",
    keyword := "module-exists",
    suggestion := some suggestion }

/-- The `steps.forEach` loop body of `validateModulePaths`. -/
def vmpGo (registry : Registry) (vp : List String) : List Step → List ValidationError
  | [] => []
  | s :: rest =>
    (if vp.contains s.module then [] else [stepModuleError registry s]) ++ vmpGo registry vp rest

/-- `validateModulePaths(steps)`: membership of each step's module path in
the registry path set, with a graduated suggestion on a miss.  The
registry snapshot is passed explicitly (the source reads it through
`getModuleRegistry()`). -/
def validateModulePaths (registry : Registry) (steps : List Step) : ValidationResult :=
  let errors := vmpGo registry (validPaths registry) steps
  { valid := errors.isEmpty, errors := errors }

/-- The built-in variables with which the dataflow pass seeds its set. -/
def initialVars : List String := ["user", "trigger"]

/-- `declaredVars.add(step.outputAs)` at the end of each loop iteration. -/
def updateVars (declared : List String) (s : Step) : List String :=
  match s.outputAs with
  | some v => declared ++ [v]
  | none => declared

/-- The declared-variable set after walking a list of steps. -/
def declFold (declared : List String) (steps : List Step) : List String :=
  steps.foldl updateVars declared

/-- The serialized inputs of a step: `JSON.stringify(step.inputs)`. -/
def stringifyInputs (inputs : List (String × JsonVal)) : String :=
  (JsonVal.obj inputs).stringify

/-- The message of an unbound-variable diagnostic for a given identifier. -/
def varMessage (name : String) : String :=
  "Reference to undeclared variable: " ++ name

/-- The unbound-variable error pushed for step index `idx` and identifier `name`. -/
def mkVarError (idx : Nat) (name : String) : ValidationError :=
  { path := "/config/steps/" ++ toString idx ++ "/inputs",
    message := varMessage name,
    keyword := "variable-declared",
    suggestion := some ("Declare \"" ++ name ++ "\" in a previous step using \"outputAs\", or check for typos") }

/-- The errors contributed by a single step of the dataflow walk, given
the declared-variable set in force when the step is processed. -/
def stepVarErrors (declared : List String) (idx : Nat) (s : Step) : List ValidationError :=
  (extractTemplateRefs (stringifyInputs s.inputs)).filterMap fun name =>
    if declared.contains name then none else some (mkVarError idx name)

/-- The `steps.forEach` loop of `validateVariableReferences`, threading
the declared-variable set and the step index. -/
def vvrGo (declared : List String) (idx : Nat) : List Step → List ValidationError
  | [] => []
  | s :: rest => stepVarErrors declared idx s ++ vvrGo (updateVars declared s) (idx + 1) rest

/-- `validateVariableReferences(steps)`: the dataflow pass. -/
def validateVariableReferences (steps : List Step) : ValidationResult :=
  let errors := vvrGo initialVars 0 steps
  { valid := errors.isEmpty, errors := errors }

/-- Substring containment, the model of `String.prototype.includes`. -/
def containsSubstr (hay needle : List Char) : Bool :=
  (List.range (hay.length + 1)).any fun i => needle.isPrefixOf (hay.drop i)

/-- The fixed list of scalar-producing function name fragments consulted
by the output display heuristic (`singleValueModules` in the source). -/
def singleValueModules : List String :=
  ["average", "sum", "count", "min", "max", "hashSHA256", "generateUUID", "now", "toISO"]

/-- `validateOutputDisplay(outputDisplay, lastStep)`: structural table
columns check plus the lexical scalar-vs-table heuristic. -/
def validateOutputDisplay (outputDisplay : Option OutputDisplay) (lastStep : Option Step) :
    ValidationResult :=
  match outputDisplay, lastStep with
  | none, _ => { valid := true, errors := [] }
  | some _, none => { valid := true, errors := [] }
  | some od, some ls =>
    let columnErrors : List ValidationError :=
      if od.type == "table" && (od.columns.getD []).isEmpty then
        [{ path := "/config/outputDisplay/columns",
           message := "Table display requires columns array",
           keyword := "table-columns",
           suggestion := some "Add columns array with at least one column definition" }]
      else []
    let mismatchErrors : List ValidationError :=
      if od.type == "table" && singleValueModules.any (fun m => containsSubstr ls.module.data m.data) then
        [{ path := "/config/outputDisplay/type",
           message := "Last step likely returns single value, but output display is \"table\" (expects array)",
           keyword := "output-type-mismatch",
           suggestion := some "Change outputDisplay.type to \"text\" or \"json\", or ensure last step returns an array" }]
      else []
    let errors := columnErrors ++ mismatchErrors
    { valid := errors.isEmpty, errors := errors }

/-- Modelled from the spec: the trigger sub-schemas
(`chatInputTriggerSchema`, `cronTriggerSchema`, `chatTriggerSchema` of
`workflow-schema.ts`, which is not among the sources) reduce to the
required-field set of each trigger variant: `cron` requires `schedule`,
`chat` requires `inputVariable`, `chat-input` requires `fields`.  Errors
take the shape `formatAjvErrors` gives a missing required property at the
document root. -/
def requiredKeyErrors (required : List String) (config : List (String × JsonVal)) :
    List ValidationError :=
  (required.filter fun k => !(config.map Prod.fst).contains k).map fun k =>
    { path := "root",
      message := "Missing required field: " ++ k,
      keyword := "required",
      suggestion := some ("Add \"" ++ k ++ "\" to the object") }

/-- `validateTrigger(trigger)`: dispatch on `trigger.type`; the types
`chat-input`, `cron` and `chat` are checked against their sub-schema
(modelled from the spec, see `requiredKeyErrors`); every other type has
no extra constraints and is valid. -/
def validateTrigger (trigger : Trigger) : ValidationResult :=
  match trigger.type with
  | "chat-input" =>
    let errors := requiredKeyErrors ["fields"] trigger.config
    { valid := errors.isEmpty, errors := errors }
  | "cron" =>
    let errors := requiredKeyErrors ["schedule"] trigger.config
    { valid := errors.isEmpty, errors := errors }
  | "chat" =>
    let errors := requiredKeyErrors ["inputVariable"] trigger.config
    { valid := errors.isEmpty, errors := errors }
  | _ => { valid := true, errors := [] }

/-- The `typeof` operator of JavaScript restricted to JSON values. -/
def jsTypeof : JsonVal → String
  | .null => "object"
  | .bool _ => "boolean"
  | .num _ => "number"
  | .str _ => "string"
  | .arr _ => "object"
  | .obj _ => "object"

/-- An AJV instance path as rendered by `formatAjvErrors`
(`error.instancePath || 'root'`). -/
def fmtPath (p : String) : String := if p == "" then "root" else p

/-- A missing-required-field error as rendered by `formatAjvErrors`. -/
def requiredError (path fieldName : String) : ValidationError :=
  { path := path,
    message := "Missing required field: " ++ fieldName,
    keyword := "required",
    suggestion := some ("Add \"" ++ fieldName ++ "\" to the object") }

/-- A wrong-type error as rendered by `formatAjvErrors`. -/
def typeError (path expected : String) (v : JsonVal) : ValidationError :=
  { path := path,
    message := "Expected type \"" ++ expected ++ "\" but got \"" ++ jsTypeof v ++ "\"",
    keyword := "type",
    suggestion := some ("Change value to type " ++ expected) }

/-- Check that field `key` of the object at instance path `p` is present
and a string. -/
def checkStrField (p : String) (fs : List (String × JsonVal)) (key : String) :
    List ValidationError :=
  match fs.lookup key with
  | none => [requiredError (fmtPath p) key]
  | some (.str _) => []
  | some v => [typeError (p ++ "/" ++ key) "string" v]

/-- Check that field `key` of the object at instance path `p` is present
and an object. -/
def checkObjField (p : String) (fs : List (String × JsonVal)) (key : String) :
    List ValidationError :=
  match fs.lookup key with
  | none => [requiredError (fmtPath p) key]
  | some (.obj _) => []
  | some v => [typeError (p ++ "/" ++ key) "object" v]

/-- Schema check of one element of `config.steps`. -/
def checkStepSchema (idx : Nat) (j : JsonVal) : List ValidationError :=
  let p := "/config/steps/" ++ toString idx
  match j with
  | .obj fs => checkStrField p fs "id" ++ checkStrField p fs "module" ++ checkObjField p fs "inputs"
  | v => [typeError p "object" v]

/-- Modelled from the spec: `workflowSchema` of `workflow-schema.ts` is
not among the sources.  The structural schema is modelled after the
spec's data model: the document is an object with required string fields
`version`, `name`, `description` and a required object `config` holding a
required array `steps` of step objects (each with required `id`, `module`
and `inputs`); an optional `trigger` object must carry `type` and
`config`; an optional `config.outputDisplay` object must carry `type`.
Every violation yields one error in the shape `formatAjvErrors` produces,
and all violations are reported (AJV runs with `allErrors: true`). -/
def structureErrors (j : JsonVal) : List ValidationError :=
  match j with
  | .obj fs =>
    checkStrField "" fs "version" ++ checkStrField "" fs "name" ++
    checkStrField "" fs "description" ++
    (match fs.lookup "trigger" with
     | none => []
     | some (.obj tfs) => checkStrField "/trigger" tfs "type" ++ checkObjField "/trigger" tfs "config"
     | some v => [typeError "/trigger" "object" v]) ++
    (match fs.lookup "config" with
     | none => [requiredError "root" "config"]
     | some (.obj cfs) =>
       (match cfs.lookup "steps" with
        | none => [requiredError "/config" "steps"]
        | some (.arr xs) => (xs.enum.flatMap fun p => checkStepSchema p.1 p.2)
        | some v => [typeError "/config/steps" "array" v]) ++
       (match cfs.lookup "outputDisplay" with
        | none => []
        | some (.obj ofs) => checkStrField "/config/outputDisplay" ofs "type"
        | some v => [typeError "/config/outputDisplay" "object" v])
     | some v => [typeError "/config" "object" v])
  | v => [typeError "root" "object" v]

/-- `validateWorkflowStructure(workflow)`: the AJV structural pass.  AJV
reports a non-valid verdict exactly when its error list is non-empty; the
schema content is modelled from the spec (see `structureErrors`). -/
def validateWorkflowStructure (workflow : JsonVal) : ValidationResult :=
  let errors := structureErrors workflow
  { valid := errors.isEmpty, errors := errors }

/-- The typed view of a schema-valid workflow document used by the
downstream passes (the TypeScript cast inside `validateWorkflowComplete`). -/
structure Workflow where
  trigger : Option Trigger
  steps : List Step
  outputDisplay : Option OutputDisplay

/-- Read a string out of a JSON field, with the empty string standing in
for an absent or non-string value (unreachable on schema-valid input). -/
def getStrD (v : Option JsonVal) : String :=
  match v with
  | some (.str s) => s
  | _ => ""

/-- Read an object out of a JSON field, defaulting to the empty object. -/
def getObjD (v : Option JsonVal) : List (String × JsonVal) :=
  match v with
  | some (.obj fs) => fs
  | _ => []

/-- The cast of one step object. -/
def castStep (j : JsonVal) : Step :=
  match j with
  | .obj fs =>
    { id := getStrD (fs.lookup "id"),
      module := getStrD (fs.lookup "module"),
      inputs := getObjD (fs.lookup "inputs"),
      outputAs := match fs.lookup "outputAs" with | some (.str s) => some s | _ => none }
  | _ => { id := "", module := "", inputs := [], outputAs := none }

/-- The cast of one table column object. -/
def castColumn (j : JsonVal) : TableColumn :=
  { key := getStrD (j.lookupField "key"), label := getStrD (j.lookupField "label") }

/-- The cast of the `outputDisplay` object. -/
def castOutputDisplay (j : JsonVal) : OutputDisplay :=
  { type := getStrD (j.lookupField "type"),
    columns := match j.lookupField "columns" with
      | some (.arr cs) => some (cs.map castColumn)
      | _ => none }

/-- The TypeScript cast `workflow as \x7b trigger?; config: ... \x7d`
performed by `validateWorkflowComplete` after the structural gate. -/
def castWorkflow (j : JsonVal) : Workflow :=
  { trigger := match j.lookupField "trigger" with
      | some t => some { type := getStrD (t.lookupField "type"),
                         config := getObjD (t.lookupField "config") }
      | none => none,
    steps := match (j.lookupField "config").bind (·.lookupField "steps") with
      | some (.arr xs) => xs.map castStep
      | _ => [],
    outputDisplay := match (j.lookupField "config").bind (·.lookupField "outputDisplay") with
      | some od => some (castOutputDisplay od)
      | none => none }

/-- `validateWorkflowComplete(workflow)`: the aggregator.  The structural
pass is a hard gate; on success the trigger, module path, variable
reference and output display passes run unconditionally and their errors
are concatenated in that order. -/
def validateWorkflowComplete (registry : Registry) (workflow : JsonVal) : ValidationResult :=
  let structureResult := validateWorkflowStructure workflow
  if !structureResult.valid then structureResult
  else
    let w := castWorkflow workflow
    let triggerErrors := match w.trigger with
      | some t => (validateTrigger t).errors
      | none => []
    let moduleErrors := (validateModulePaths registry w.steps).errors
    let varErrors := (validateVariableReferences w.steps).errors
    let outputErrors := (validateOutputDisplay w.outputDisplay w.steps.getLast?).errors
    let allErrors := triggerErrors ++ moduleErrors ++ varErrors ++ outputErrors
    { valid := allErrors.isEmpty, errors := allErrors }

/-- The declared-variable set in force when step `k` of the walk is
processed (built-ins plus the output bindings of the first `k` steps). -/
def declaredBefore (steps : List Step) (k : Nat) : List String :=
  declFold initialVars (steps.take k)

/-- The shape of a run of the regex fragment `(?:\.\w+)*`. -/
inductive DottedShape : List Char → Prop where
  | nil : DottedShape []
  | cons (w d : List Char) : w ≠ [] → (∀ c ∈ w, isWordChar c) → DottedShape d →
      DottedShape ('.' :: (w ++ d))

/-- The shape of a run of the regex fragment `(?:\[\d+\])*`. -/
inductive BracketShape : List Char → Prop where
  | nil : BracketShape []
  | cons (ds b : List Char) : ds ≠ [] → (∀ c ∈ ds, c.isDigit) → BracketShape b →
      BracketShape ('[' :: (ds ++ ']' :: b))

/-- A small registry used to exercise the validator on closed inputs. -/
def sampleRegistry : Registry :=
  [{ name := "ai",
     modules := [{ name := "openai", functions := [{ name := "generateText" }] }] },
   { name := "data",
     modules := [{ name := "aggregate", functions := [{ name := "countItems" }] }] }]

/-- A schema-valid two-step document: step `s1` binds `r`, step `s2`
references `\x7b\x7br\x7d\x7d`. -/
def docGood : JsonVal :=
  .obj [("version", .str "1.0"), ("name", .str "w"), ("description", .str "d"),
        ("config", .obj [("steps", .arr [
          .obj [("id", .str "s1"), ("module", .str "ai.openai.generateText"),
                ("inputs", .obj [("prompt", .str "hello")]), ("outputAs", .str "r")],
          .obj [("id", .str "s2"), ("module", .str "ai.openai.generateText"),
                ("inputs", .obj [("prompt", .str "\x7b\x7br\x7d\x7d")])]])])]

/-- A schema-valid document whose `cron` trigger is missing `schedule`
and whose single step names a module path absent from the registry. -/
def docBadTrigger : JsonVal :=
  .obj [("version", .str "1.0"), ("name", .str "w"), ("description", .str "d"),
        ("trigger", .obj [("type", .str "cron"), ("config", .obj [])]),
        ("config", .obj [("steps", .arr [
          .obj [("id", .str "s1"), ("module", .str "nope.nope.nope"),
                ("inputs", .obj [])]])])]

/-- A schema-valid document with a `table` output display without columns
whose last step's module path contains the fragment `count`. -/
def docTable : JsonVal :=
  .obj [("version", .str "1.0"), ("name", .str "w"), ("description", .str "d"),
        ("config", .obj [("steps", .arr [
          .obj [("id", .str "s1"), ("module", .str "data.aggregate.countItems"),
                ("inputs", .obj [])]]),
          ("outputDisplay", .obj [("type", .str "table")])])]

theorem string_append_cancel_left {p a b : String} (h : p ++ a = p ++ b) : a = b := by
  apply String.ext
  have hd : p.data ++ a.data = p.data ++ b.data := congrArg String.data h
  exact List.append_cancel_left hd

theorem varMessage_inj {a b : String} (h : varMessage a = varMessage b) : a = b :=
  string_append_cancel_left h

theorem validateTrigger_valid_eq (t : Trigger) :
    (validateTrigger t).valid = (validateTrigger t).errors.isEmpty := by
  unfold validateTrigger
  split <;> rfl

theorem validateWorkflowComplete_of_structure_valid (registry : Registry) (j : JsonVal)
    (h : (validateWorkflowStructure j).valid = true) :
    validateWorkflowComplete registry j =
      { valid := ((match (castWorkflow j).trigger with
                   | some t => (validateTrigger t).errors
                   | none => []) ++
                  (validateModulePaths registry (castWorkflow j).steps).errors ++
                  (validateVariableReferences (castWorkflow j).steps).errors ++
                  (validateOutputDisplay (castWorkflow j).outputDisplay
                    (castWorkflow j).steps.getLast?).errors).isEmpty,
        errors := (match (castWorkflow j).trigger with
                   | some t => (validateTrigger t).errors
                   | none => []) ++
                  (validateModulePaths registry (castWorkflow j).steps).errors ++
                  (validateVariableReferences (castWorkflow j).steps).errors ++
                  (validateOutputDisplay (castWorkflow j).outputDisplay
                    (castWorkflow j).steps.getLast?).errors } := by
  unfold validateWorkflowComplete
  simp [h]

/-- C5: for every schema-valid document, `validateWorkflowComplete` runs the
capability-path, variable-reference and output-display passes
unconditionally, concatenates their diagnostics in that fixed order
(after any trigger diagnostics) into the result, and returns
`valid = true` iff the concatenated diagnostic list is empty. -/
theorem c5_pass_concatenation (registry : Registry) (j : JsonVal)
    (h : (validateWorkflowStructure j).valid = true) :
    (validateWorkflowComplete registry j).errors =
      (match (castWorkflow j).trigger with
       | some t => (validateTrigger t).errors
       | none => []) ++
      (validateModulePaths registry (castWorkflow j).steps).errors ++
      (validateVariableReferences (castWorkflow j).steps).errors ++
      (validateOutputDisplay (castWorkflow j).outputDisplay
        (castWorkflow j).steps.getLast?).errors ∧
    ((validateWorkflowComplete registry j).valid = true ↔
      (validateWorkflowComplete registry j).errors = []) := by
  rw [validateWorkflowComplete_of_structure_valid registry j h]
  exact ⟨rfl, by simp⟩

/-- Witness for C5 at the concrete document `docGood`. -/
theorem c5_pass_concatenation_witness :
    (validateWorkflowStructure docGood).valid = true ∧
    ((validateWorkflowComplete sampleRegistry docGood).errors =
      (match (castWorkflow docGood).trigger with
       | some t => (validateTrigger t).errors
       | none => []) ++
      (validateModulePaths sampleRegistry (castWorkflow docGood).steps).errors ++
      (validateVariableReferences (castWorkflow docGood).steps).errors ++
      (validateOutputDisplay (castWorkflow docGood).outputDisplay
        (castWorkflow docGood).steps.getLast?).errors ∧
    ((validateWorkflowComplete sampleRegistry docGood).valid = true ↔
      (validateWorkflowComplete sampleRegistry docGood).errors = [])) :=
  ⟨by decide, c5_pass_concatenation sampleRegistry docGood (by decide)⟩

/-- C9: validation is a deterministic function of the document and the
catalog snapshot: the embedding of `validateWorkflowComplete` is a pure
function (the source holds no mutable cross-call state beyond the
compiled-schema cache, which is a pure function of the fixed schemas), so
two calls on the same document and registry agree in the `valid` flag and
element for element in the diagnostic list. -/
theorem c9_idempotent (registry : Registry) (j : JsonVal) :
    (validateWorkflowComplete registry j).valid =
      (validateWorkflowComplete registry j).valid ∧
    (validateWorkflowComplete registry j).errors =
      (validateWorkflowComplete registry j).errors :=
  ⟨rfl, rfl⟩

/-- C6: `validateOutputDisplay` yields exactly one missing-table-columns
diagnostic when `type = "table"` and the columns list is empty or
missing, none when at least one column is supplied, and is a valid no-op
when either argument is absent. -/
theorem c6_table_columns (od : OutputDisplay) (ls : Step) :
    (od.type = "table" → od.columns = none ∨ od.columns = some [] →
      ((validateOutputDisplay (some od) (some ls)).errors.countP
        (fun e => e.keyword == "table-columns")) = 1) ∧
    (∀ c cs, od.columns = some (c :: cs) →
      ((validateOutputDisplay (some od) (some ls)).errors.countP
        (fun e => e.keyword == "table-columns")) = 0) ∧
    (∀ ls' : Option Step, validateOutputDisplay none ls' = { valid := true, errors := [] }) ∧
    (∀ od' : Option OutputDisplay, validateOutputDisplay od' none = { valid := true, errors := [] }) := by
  refine ⟨?_, ?_, ?_, ?_⟩
  · intro ht hcols
    have hb : (od.type == "table") = true := by simp [ht]
    have hempty : (od.columns.getD []).isEmpty = true := by
      rcases hcols with h | h <;> simp [h]
    unfold validateOutputDisplay
    simp only [hb, hempty, Bool.true_and, if_pos rfl]
    rcases hany : singleValueModules.any (fun m => containsSubstr ls.module.data m.data) with _ | _ <;>
      simp [hany, List.countP_append, List.countP_cons]
  · intro c cs hcols
    have hempty : (od.columns.getD []).isEmpty = false := by simp [hcols]
    unfold validateOutputDisplay
    rcases hb : (od.type == "table") with _ | _ <;>
      rcases hany : singleValueModules.any (fun m => containsSubstr ls.module.data m.data) with _ | _ <;>
        simp [hb, hempty, hany, List.countP_append, List.countP_cons]
  · intro ls'; rfl
  · intro od'; cases od' <;> rfl

/-- Witness for C6 at `type = "table"` with missing columns. -/
theorem c6_table_columns_witness :
    ((validateOutputDisplay
        (some { type := "table", columns := none })
        (some { id := "s1", module := "ai.openai.generateText", inputs := [], outputAs := none })).errors.countP
      (fun e => e.keyword == "table-columns")) = 1 :=
  (c6_table_columns { type := "table", columns := none }
    { id := "s1", module := "ai.openai.generateText", inputs := [], outputAs := none }).1
    rfl (Or.inl rfl)

/-- C7: with `outputDisplay.type = "table"` and a last step whose module
path contains one of the fixed scalar-producing fragments, the complete
validation of a schema-valid document contains a likely-type-mismatch
(`output-type-mismatch`) diagnostic. -/
theorem c7_scalar_table_mismatch (registry : Registry) (j : JsonVal)
    (od : OutputDisplay) (ls : Step) (frag : String)
    (h : (validateWorkflowStructure j).valid = true)
    (hod : (castWorkflow j).outputDisplay = some od)
    (ht : od.type = "table")
    (hlast : (castWorkflow j).steps.getLast? = some ls)
    (hfrag : frag ∈ singleValueModules)
    (hsub : containsSubstr ls.module.data frag.data = true) :
    ∃ e ∈ (validateWorkflowComplete registry j).errors, e.keyword = "output-type-mismatch" := by
  have hmem : ∃ e ∈ (validateOutputDisplay (castWorkflow j).outputDisplay
      (castWorkflow j).steps.getLast?).errors, e.keyword = "output-type-mismatch" := by
    rw [hod, hlast]
    have hany : singleValueModules.any (fun m => containsSubstr ls.module.data m.data) = true :=
      List.any_eq_true.mpr ⟨frag, hfrag, hsub⟩
    have hb : (od.type == "table") = true := by simp [ht]
    unfold validateOutputDisplay
    rcases hempty : (od.columns.getD []).isEmpty with _ | _ <;>
      simp [hb, hany, hempty]
  rcases hmem with ⟨e, he, hkw⟩
  refine ⟨e, ?_, hkw⟩
  rw [validateWorkflowComplete_of_structure_valid registry j h]
  simp only [List.mem_append]
  exact Or.inr he

/-- Witness for C7 at the concrete document `docTable`, whose last step's
module path `data.aggregate.countItems` contains the fragment `count`. -/
theorem c7_scalar_table_mismatch_witness :
    ∃ e ∈ (validateWorkflowComplete sampleRegistry docTable).errors,
      e.keyword = "output-type-mismatch" :=
  c7_scalar_table_mismatch sampleRegistry docTable
    { type := "table", columns := none }
    { id := "s1", module := "data.aggregate.countItems", inputs := [], outputAs := none }
    "count" (by decide) rfl rfl rfl (by decide) (by decide)

theorem checkStrField_keyword {p : String} {fs : List (String × JsonVal)} {key : String}
    {e : ValidationError} (h : e ∈ checkStrField p fs key) :
    e.keyword = "required" ∨ e.keyword = "type" := by
  unfold checkStrField at h
  split at h
  · simp only [List.mem_singleton] at h; subst h; exact Or.inl rfl
  · simp at h
  · simp only [List.mem_singleton] at h; subst h; exact Or.inr rfl

theorem checkObjField_keyword {p : String} {fs : List (String × JsonVal)} {key : String}
    {e : ValidationError} (h : e ∈ checkObjField p fs key) :
    e.keyword = "required" ∨ e.keyword = "type" := by
  unfold checkObjField at h
  split at h
  · simp only [List.mem_singleton] at h; subst h; exact Or.inl rfl
  · simp at h
  · simp only [List.mem_singleton] at h; subst h; exact Or.inr rfl

theorem checkStepSchema_keyword {idx : Nat} {j : JsonVal} {e : ValidationError}
    (h : e ∈ checkStepSchema idx j) :
    e.keyword = "required" ∨ e.keyword = "type" := by
  unfold checkStepSchema at h
  split at h
  · simp only [List.mem_append] at h
    rcases h with (h | h) | h
    · exact checkStrField_keyword h
    · exact checkStrField_keyword h
    · exact checkObjField_keyword h
  · simp only [List.mem_singleton] at h; subst h; exact Or.inr rfl

theorem structureErrors_keyword {j : JsonVal} {e : ValidationError}
    (h : e ∈ structureErrors j) :
    e.keyword = "required" ∨ e.keyword = "type" := by
  unfold structureErrors at h
  split at h
  case _ fs =>
    simp only [List.mem_append] at h
    rcases h with (((h | h) | h) | h) | h
    · exact checkStrField_keyword h
    · exact checkStrField_keyword h
    · exact checkStrField_keyword h
    · split at h
      · simp at h
      · rcases List.mem_append.mp h with h | h
        · exact checkStrField_keyword h
        · exact checkObjField_keyword h
      · simp only [List.mem_singleton] at h; subst h; exact Or.inr rfl
    · split at h
      · simp only [List.mem_singleton] at h; subst h; exact Or.inl rfl
      · rcases List.mem_append.mp h with h | h
        · split at h
          · simp only [List.mem_singleton] at h; subst h; exact Or.inl rfl
          · rcases List.mem_flatMap.mp h with ⟨q, _, hq⟩
            exact checkStepSchema_keyword hq
          · simp only [List.mem_singleton] at h; subst h; exact Or.inr rfl
        · split at h
          · simp at h
          · exact checkStrField_keyword h
          · simp only [List.mem_singleton] at h; subst h; exact Or.inr rfl
      · simp only [List.mem_singleton] at h; subst h; exact Or.inr rfl
  case _ v _ => simp only [List.mem_singleton] at h; subst h; exact Or.inr rfl

/-- C1: the structural schema check is a hard gate: on a document failing
the schema, `validateWorkflowComplete` returns the schema result itself,
with `valid = false`, at least one schema-violation diagnostic, and no
capability-path, variable-reference or output-display diagnostics. -/
theorem c1_schema_hard_gate (registry : Registry) (j : JsonVal)
    (h : (validateWorkflowStructure j).valid = false) :
    validateWorkflowComplete registry j = validateWorkflowStructure j ∧
    (validateWorkflowComplete registry j).valid = false ∧
    (validateWorkflowComplete registry j).errors ≠ [] ∧
    (∀ e ∈ (validateWorkflowComplete registry j).errors,
      (e.keyword = "required" ∨ e.keyword = "type") ∧
      e.keyword ≠ "module-exists" ∧ e.keyword ≠ "variable-declared" ∧
      e.keyword ≠ "table-columns" ∧ e.keyword ≠ "output-type-mismatch") := by
  have hre : validateWorkflowComplete registry j = validateWorkflowStructure j := by
    unfold validateWorkflowComplete
    simp [h]
  have hne : (validateWorkflowStructure j).errors ≠ [] := by
    intro hn
    have hv : (validateWorkflowStructure j).valid = (structureErrors j).isEmpty := rfl
    have he : (validateWorkflowStructure j).errors = structureErrors j := rfl
    rw [he] at hn
    rw [hv, hn] at h
    simp at h
  refine ⟨hre, by rw [hre]; exact h, by rw [hre]; exact hne, ?_⟩
  intro e he
  rw [hre] at he
  have hk := structureErrors_keyword (he : e ∈ structureErrors j)
  refine ⟨hk, ?_, ?_, ?_, ?_⟩ <;> rcases hk with hk | hk <;> rw [hk] <;> decide

/-- Witness for C1 at the empty-object document (all required top-level
fields, `config.steps` among what they lead to, are missing). -/
theorem c1_schema_hard_gate_witness :
    (validateWorkflowStructure (JsonVal.obj [])).valid = false ∧
    (validateWorkflowComplete sampleRegistry (JsonVal.obj []) =
      validateWorkflowStructure (JsonVal.obj []) ∧
    (validateWorkflowComplete sampleRegistry (JsonVal.obj [])).valid = false ∧
    (validateWorkflowComplete sampleRegistry (JsonVal.obj [])).errors ≠ [] ∧
    (∀ e ∈ (validateWorkflowComplete sampleRegistry (JsonVal.obj [])).errors,
      (e.keyword = "required" ∨ e.keyword = "type") ∧
      e.keyword ≠ "module-exists" ∧ e.keyword ≠ "variable-declared" ∧
      e.keyword ≠ "table-columns" ∧ e.keyword ≠ "output-type-mismatch")) :=
  ⟨by decide, c1_schema_hard_gate sampleRegistry (JsonVal.obj []) (by decide)⟩

/-- C2 counterexample: `docBadTrigger` is schema-valid, its `cron`
trigger config violates the trigger sub-schema, and yet the complete
validation reports a capability-path (`module-exists`) diagnostic right
alongside the trigger diagnostic — the trigger check does not return
immediately and does not suppress the later passes. -/
theorem c2_counterexample :
    (validateWorkflowStructure docBadTrigger).valid = true ∧
    (validateTrigger { type := "cron", config := [] }).valid = false ∧
    (castWorkflow docBadTrigger).trigger = some { type := "cron", config := [] } ∧
    (validateWorkflowComplete sampleRegistry docBadTrigger).errors.map (·.keyword) =
      ["required", "module-exists"] :=
  ⟨by decide, by decide, rfl, by decide⟩

/-- C2 (amended): the trigger-type-specific sub-schema check is not part
of the schema hard gate: it runs after the structural gate, never returns
immediately, and its diagnostics are concatenated before the
capability-path, variable-reference and output-display diagnostics,
which are still produced; the document is reported invalid. -/
theorem c2_trigger_not_gating (registry : Registry) (j : JsonVal) (t : Trigger)
    (h : (validateWorkflowStructure j).valid = true)
    (htr : (castWorkflow j).trigger = some t)
    (hbad : (validateTrigger t).valid = false) :
    (validateTrigger t).errors ≠ [] ∧
    (validateWorkflowComplete registry j).valid = false ∧
    (validateWorkflowComplete registry j).errors =
      (validateTrigger t).errors ++
      (validateModulePaths registry (castWorkflow j).steps).errors ++
      (validateVariableReferences (castWorkflow j).steps).errors ++
      (validateOutputDisplay (castWorkflow j).outputDisplay
        (castWorkflow j).steps.getLast?).errors := by
  have hne : (validateTrigger t).errors ≠ [] := by
    intro hn
    rw [validateTrigger_valid_eq, hn] at hbad
    simp at hbad
  have heq := validateWorkflowComplete_of_structure_valid registry j h
  rw [heq]
  refine ⟨hne, ?_, by simp [htr]⟩
  simp only [htr]
  simp [List.isEmpty_iff, List.append_eq_nil]
  intro hn
  exact absurd hn hne

/-- Witness for the amended C2 at the concrete document `docBadTrigger`. -/
theorem c2_trigger_not_gating_witness :
    (validateWorkflowStructure docBadTrigger).valid = true ∧
    ((validateTrigger { type := "cron", config := [] }).errors ≠ [] ∧
    (validateWorkflowComplete sampleRegistry docBadTrigger).valid = false ∧
    (validateWorkflowComplete sampleRegistry docBadTrigger).errors =
      (validateTrigger { type := "cron", config := [] }).errors ++
      (validateModulePaths sampleRegistry (castWorkflow docBadTrigger).steps).errors ++
      (validateVariableReferences (castWorkflow docBadTrigger).steps).errors ++
      (validateOutputDisplay (castWorkflow docBadTrigger).outputDisplay
        (castWorkflow docBadTrigger).steps.getLast?).errors) :=
  ⟨by decide, c2_trigger_not_gating sampleRegistry docBadTrigger
    { type := "cron", config := [] } (by decide) rfl (by decide)⟩

theorem string_append_ne_empty {a : String} (b : String) (ha : a ≠ "") : a ++ b ≠ "" := by
  intro h
  have hd : a.data ++ b.data = ([] : List Char) := congrArg String.data h
  rcases List.append_eq_nil.mp hd with ⟨ha0, _⟩
  exact ha (String.ext ha0)

theorem vmpGo_eq_filter_map (registry : Registry) (vp : List String) (steps : List Step) :
    vmpGo registry vp steps =
      (steps.filter fun s => !(vp.contains s.module)).map (stepModuleError registry) := by
  induction steps with
  | nil => rfl
  | cons s rest ih =>
    show (if vp.contains s.module then [] else [stepModuleError registry s]) ++
      vmpGo registry vp rest = _
    rcases hc : vp.contains s.module with _ | _
    · rw [List.filter_cons, hc]
      simp [ih]
    · rw [List.filter_cons, hc]
      simp [ih]

/-- C4: `validateModulePaths` emits exactly one `module-exists`
(capability-not-found) diagnostic per step whose path is absent from the
registry — the error list is exactly the in-order map of the per-step
error over the missing steps — and the suggestion follows the graduated
fallback over the path's category and module segments; whenever the
category segment matches a known category the suggestion is non-empty. -/
theorem c4_graduated_suggestions (registry : Registry) (steps : List Step) :
    (validateModulePaths registry steps).errors =
      (steps.filter fun s => !((validPaths registry).contains s.module)).map
        (stepModuleError registry) ∧
    (∀ step : Step,
      (stepModuleError registry step).keyword = "module-exists" ∧
      (registry.find? (fun c => c.name == (jsSplitDot step.module).headD "") = none →
        (stepModuleError registry step).suggestion =
          some ("Category \"" ++ (jsSplitDot step.module).headD "" ++
            "\" not found. Available: " ++
            String.intercalate ", " (registry.map (·.name)))) ∧
      (∀ cat, registry.find? (fun c => c.name == (jsSplitDot step.module).headD "") = some cat →
        (cat.modules.find? (fun m => some m.name == (jsSplitDot step.module)[1]?) = none →
          (stepModuleError registry step).suggestion =
            some ("Module \"" ++ jsShowOpt (jsSplitDot step.module)[1]? ++
              "\" not found in category \"" ++ (jsSplitDot step.module).headD "" ++
              "\". Available: " ++
              String.intercalate ", " (cat.modules.map (·.name)))) ∧
        (∀ fm, cat.modules.find? (fun m => some m.name == (jsSplitDot step.module)[1]?) = some fm →
          (stepModuleError registry step).suggestion =
            some ("Function not found in " ++ (jsSplitDot step.module).headD "" ++ "." ++
              jsShowOpt (jsSplitDot step.module)[1]? ++ ". Available: " ++
              String.intercalate ", " (fm.functions.map (·.name)))) ∧
        (∃ str, (stepModuleError registry step).suggestion = some str ∧ str ≠ ""))) := by
  refine ⟨vmpGo_eq_filter_map registry (validPaths registry) steps, ?_⟩
  intro step
  refine ⟨rfl, ?_, ?_⟩
  · intro hcat
    simp only [stepModuleError, hcat]
  · intro cat hcat
    refine ⟨?_, ?_, ?_⟩
    · intro hmod
      simp only [stepModuleError, hcat, hmod]
    · intro fm hmod
      simp only [stepModuleError, hcat, hmod]
    · rcases hmod : cat.modules.find? (fun m => some m.name == (jsSplitDot step.module)[1]?)
        with _ | fm
      · refine ⟨"Module \"" ++ jsShowOpt (jsSplitDot step.module)[1]? ++
          "\" not found in category \"" ++ (jsSplitDot step.module).headD "" ++
          "\". Available: " ++ String.intercalate ", " (cat.modules.map (·.name)), ?_, ?_⟩
        · simp only [stepModuleError, hcat, hmod]
        · repeat apply string_append_ne_empty
          decide
      · refine ⟨"Function not found in " ++ (jsSplitDot step.module).headD "" ++ "." ++
          jsShowOpt (jsSplitDot step.module)[1]? ++ ". Available: " ++
          String.intercalate ", " (fm.functions.map (·.name)), ?_, ?_⟩
        · simp only [stepModuleError, hcat, hmod]
        · repeat apply string_append_ne_empty
          decide

/-- Witness for C4 at a step with an unknown module segment inside the
known category `ai` (`ai.missing.fn` against `sampleRegistry`): the
suggestion lists the modules of that category. -/
theorem c4_graduated_suggestions_witness :
    (sampleRegistry.find? (fun c => c.name == ((jsSplitDot "ai.missing.fn").headD "")) =
      some { name := "ai",
             modules := [{ name := "openai", functions := [{ name := "generateText" }] }] }) ∧
    (stepModuleError sampleRegistry
        { id := "s1", module := "ai.missing.fn", inputs := [], outputAs := none }).suggestion =
      some ("Module \"" ++ jsShowOpt (jsSplitDot "ai.missing.fn")[1]? ++
        "\" not found in category \"" ++ (jsSplitDot "ai.missing.fn").headD "" ++
        "\". Available: " ++
        String.intercalate ", "
          (([{ name := "openai", functions := [{ name := "generateText" }] }] :
            List RegistryModule).map (·.name))) :=
  ⟨by decide,
    (((c4_graduated_suggestions sampleRegistry
        [{ id := "s1", module := "ai.missing.fn", inputs := [], outputAs := none }]).2
      { id := "s1", module := "ai.missing.fn", inputs := [], outputAs := none }).2.2
      { name := "ai",
        modules := [{ name := "openai", functions := [{ name := "generateText" }] }] }
      (by decide)).1 (by decide)⟩

theorem updateVars_mem_of {a : String} {d : List String} (s : Step) (h : a ∈ d) :
    a ∈ updateVars d s := by
  unfold updateVars
  cases s.outputAs <;> simp [h]

theorem mem_updateVars_iff {a : String} {d : List String} {s : Step} :
    a ∈ updateVars d s ↔ a ∈ d ∨ s.outputAs = some a := by
  unfold updateVars
  cases ho : s.outputAs with
  | none => simp
  | some v => simp [List.mem_append, eq_comm]

theorem mem_declFold_iff {a : String} {xs : List Step} :
    ∀ {d : List String}, a ∈ declFold d xs ↔ a ∈ d ∨ ∃ s ∈ xs, s.outputAs = some a := by
  induction xs with
  | nil => intro d; simp [declFold]
  | cons s rest ih =>
    intro d
    show a ∈ declFold (updateVars d s) rest ↔ _
    rw [ih, mem_updateVars_iff]
    constructor
    · rintro ((h | h) | ⟨t, ht, hout⟩)
      · exact Or.inl h
      · exact Or.inr ⟨s, List.mem_cons_self s rest, h⟩
      · exact Or.inr ⟨t, List.mem_cons_of_mem s ht, hout⟩
    · rintro (h | ⟨t, ht, hout⟩)
      · exact Or.inl (Or.inl h)
      · rcases List.mem_cons.mp ht with rfl | ht
        · exact Or.inl (Or.inr hout)
        · exact Or.inr ⟨t, ht, hout⟩

theorem vvrGo_append (xs : List Step) :
    ∀ (d : List String) (i : Nat) (ys : List Step),
      vvrGo d i (xs ++ ys) = vvrGo d i xs ++ vvrGo (declFold d xs) (i + xs.length) ys := by
  induction xs with
  | nil => intro d i ys; simp [vvrGo, declFold]
  | cons s rest ih =>
    intro d i ys
    show stepVarErrors d i s ++ vvrGo (updateVars d s) (i + 1) (rest ++ ys) = _
    rw [ih]
    have hd : declFold d (s :: rest) = declFold (updateVars d s) rest := rfl
    have hn : i + 1 + rest.length = i + (s :: rest).length := by
      simp [List.length_cons]; omega
    rw [hd, ← hn]
    show _ = (stepVarErrors d i s ++ vvrGo (updateVars d s) (i + 1) rest) ++ _
    rw [List.append_assoc]

theorem mem_stepVarErrors_of {name : String} {d : List String} {i : Nat} {s : Step}
    (href : name ∈ extractTemplateRefs (stringifyInputs s.inputs))
    (hnd : name ∉ d) : mkVarError i name ∈ stepVarErrors d i s := by
  unfold stepVarErrors
  refine List.mem_filterMap.mpr ⟨name, href, ?_⟩
  rw [if_neg (fun hc => hnd (List.elem_iff.mp hc))]

theorem stepVarErrors_shape {e : ValidationError} {d : List String} {i : Nat} {s : Step}
    (h : e ∈ stepVarErrors d i s) :
    ∃ name, name ∈ extractTemplateRefs (stringifyInputs s.inputs) ∧ name ∉ d ∧
      e = mkVarError i name := by
  unfold stepVarErrors at h
  rcases List.mem_filterMap.mp h with ⟨name, hname, hsome⟩
  by_cases hc : name ∈ d
  · rw [if_pos (List.elem_iff.mpr hc)] at hsome
    simp at hsome
  · rw [if_neg (fun hcc => hc (List.elem_iff.mp hcc))] at hsome
    exact ⟨name, hname, hc, (Option.some.inj hsome).symm⟩

theorem vvrGo_no_message (name : String) :
    ∀ (steps : List Step) (d : List String) (i : Nat) (e : ValidationError),
      name ∈ d → e ∈ vvrGo d i steps → e.message ≠ varMessage name := by
  intro steps
  induction steps with
  | nil =>
    intro d i e _ h
    simp [vvrGo] at h
  | cons s rest ih =>
    intro d i e hmem h
    rcases List.mem_append.mp h with h | h
    · rcases stepVarErrors_shape h with ⟨n, _, hnd, he⟩
      rw [he]
      show varMessage n ≠ varMessage name
      intro hmsg
      exact hnd (varMessage_inj hmsg ▸ hmem)
    · exact ih (updateVars d s) (i + 1) e (updateVars_mem_of s hmem) h

/-- C8: references to the built-in names `user` and `trigger` never
produce an unbound-variable diagnostic from `validateVariableReferences`,
because the declared set is seeded with both built-ins and only grows. -/
theorem c8_builtins_never_flagged (steps : List Step) (e : ValidationError)
    (he : e ∈ (validateVariableReferences steps).errors) :
    e.message ≠ varMessage "user" ∧ e.message ≠ varMessage "trigger" :=
  ⟨vvrGo_no_message "user" steps initialVars 0 e (by simp [initialVars]) he,
   vvrGo_no_message "trigger" steps initialVars 0 e (by simp [initialVars]) he⟩

/-- Witness for C8: a step with zero preceding steps referencing
`\x7b\x7buser\x7d\x7d` and an unbound `\x7b\x7br\x7d\x7d`; the single
diagnostic produced names `r`, not a built-in. -/
theorem c8_builtins_never_flagged_witness :
    mkVarError 0 "r" ∈ (validateVariableReferences
      [{ id := "s1", module := "m.m.f",
         inputs := [("a", .str "\x7b\x7buser\x7d\x7d"), ("b", .str "\x7b\x7br\x7d\x7d")],
         outputAs := none }]).errors ∧
    (mkVarError 0 "r").message ≠ varMessage "user" ∧
    (mkVarError 0 "r").message ≠ varMessage "trigger" :=
  ⟨by decide,
   c8_builtins_never_flagged
     [{ id := "s1", module := "m.m.f",
        inputs := [("a", .str "\x7b\x7buser\x7d\x7d"), ("b", .str "\x7b\x7br\x7d\x7d")],
        outputAs := none }]
     (mkVarError 0 "r") (by decide)⟩

theorem declaredBefore_succ (steps : List Step) (m : Nat) (hm : m < steps.length) :
    declaredBefore steps (m + 1) = updateVars (declaredBefore steps m) steps[m] := by
  unfold declaredBefore
  rw [List.take_succ, List.getElem?_eq_getElem hm]
  show declFold initialVars (steps.take m ++ [steps[m]]) = _
  unfold declFold
  rw [List.foldl_append]
  rfl

theorem vvr_decomposition (steps : List Step) (m : Nat) (hm : m < steps.length) :
    (validateVariableReferences steps).errors =
      vvrGo initialVars 0 (steps.take m) ++
      (stepVarErrors (declaredBefore steps m) m steps[m] ++
       vvrGo (declaredBefore steps (m + 1)) (m + 1) (steps.drop (m + 1))) := by
  have h1 : steps.take m ++ steps[m] :: steps.drop (m + 1) = steps := by
    conv_rhs => rw [← List.take_append_drop m steps]
    rw [List.drop_eq_getElem_cons hm]
  have hlen : (steps.take m).length = m := by
    rw [List.length_take]
    omega
  show vvrGo initialVars 0 steps = _
  conv_lhs => rw [← h1]
  rw [vvrGo_append]
  show vvrGo initialVars 0 (steps.take m) ++
    (stepVarErrors (declFold initialVars (steps.take m)) (0 + (steps.take m).length) steps[m] ++
     vvrGo (updateVars (declFold initialVars (steps.take m)) steps[m])
       (0 + (steps.take m).length + 1) (steps.drop (m + 1))) = _
  rw [hlen, declaredBefore_succ steps m hm]
  simp only [Nat.zero_add]
  rfl

/-- C3: in the dataflow walk, a reference in step `k` to a name not yet
bound (not a built-in and not the output of any earlier step, so bound at
the earliest by step `k` itself or a later step) is flagged for step `k`;
once step `j` binds a name, no later step `m > j` is ever flagged for
that name; and the declared-name set grows monotonically along the walk.
The first conjunct localizes each step's contribution inside the overall
error list. -/
theorem c3_scope_monotonicity (steps : List Step) :
    (∀ m (hm : m < steps.length),
      (validateVariableReferences steps).errors =
        vvrGo initialVars 0 (steps.take m) ++
        (stepVarErrors (declaredBefore steps m) m steps[m] ++
         vvrGo (declaredBefore steps (m + 1)) (m + 1) (steps.drop (m + 1)))) ∧
    (∀ k (hk : k < steps.length) name,
      name ∈ extractTemplateRefs (stringifyInputs steps[k].inputs) →
      name ∉ initialVars →
      (∀ s ∈ steps.take k, s.outputAs ≠ some name) →
      mkVarError k name ∈ (validateVariableReferences steps).errors) ∧
    (∀ j m name (s : Step) (hm : m < steps.length),
      steps[j]? = some s → s.outputAs = some name → j < m →
      mkVarError m name ∉ stepVarErrors (declaredBefore steps m) m steps[m]) ∧
    (∀ k x, x ∈ declaredBefore steps k → x ∈ declaredBefore steps (k + 1)) := by
  refine ⟨vvr_decomposition steps, ?_, ?_, ?_⟩
  · intro k hk name href hnb hearlier
    have hnd : name ∉ declaredBefore steps k := by
      intro hmem
      rcases mem_declFold_iff.mp hmem with h | ⟨s, hs, hout⟩
      · exact hnb h
      · exact hearlier s hs hout
    rw [vvr_decomposition steps k hk]
    exact List.mem_append.mpr (Or.inr (List.mem_append.mpr
      (Or.inl (mem_stepVarErrors_of href hnd))))
  · intro j m name s hm hj hout hjm
    have hsmem : s ∈ steps.take m := by
      have : (steps.take m)[j]? = some s := by
        rw [List.getElem?_take, if_pos hjm]
        exact hj
      exact List.getElem?_mem this
    have hname : name ∈ declaredBefore steps m :=
      mem_declFold_iff.mpr (Or.inr ⟨s, hsmem, hout⟩)
    intro hmem
    rcases stepVarErrors_shape hmem with ⟨n, _, hnd, he⟩
    have hmsg : varMessage name = varMessage n := congrArg ValidationError.message he
    exact hnd (varMessage_inj hmsg ▸ hname)
  · intro k x hx
    by_cases hk : k < steps.length
    · rw [declaredBefore_succ steps k hk]
      exact updateVars_mem_of _ hx
    · have h1 : steps.take k = steps := List.take_of_length_le (by omega)
      have h2 : steps.take (k + 1) = steps := List.take_of_length_le (by omega)
      unfold declaredBefore at hx ⊢
      rw [h2, ← h1]
      exact hx

/-- Witness for C3: a single step referencing `\x7b\x7br\x7d\x7d` while
binding `r` only as its own output — the self-reference is flagged. -/
theorem c3_scope_monotonicity_witness :
    mkVarError 0 "r" ∈ (validateVariableReferences
      [{ id := "s1", module := "m.m.f",
         inputs := [("a", .str "\x7b\x7br\x7d\x7d")],
         outputAs := some "r" }]).errors :=
  (c3_scope_monotonicity
      [{ id := "s1", module := "m.m.f",
         inputs := [("a", .str "\x7b\x7br\x7d\x7d")],
         outputAs := some "r" }]).2.1 0 (by decide) "r" (by decide) (by decide)
    (by intro s hs; simp at hs)


theorem dottedRun_spec : ∀ (fuel : Nat) (cs : List Char),
    (dottedRun fuel cs).1 ++ (dottedRun fuel cs).2 = cs ∧ DottedShape (dottedRun fuel cs).1 := by
  intro fuel
  induction fuel with
  | zero => intro cs; exact ⟨rfl, DottedShape.nil⟩
  | succ fuel ih =>
    intro cs
    rcases cs with _ | ⟨c, rest⟩
    · exact ⟨rfl, DottedShape.nil⟩
    · rcases hc : c == '.' with _ | _
      · have hred : dottedRun (fuel + 1) (c :: rest) = ([], c :: rest) := by
          simp only [dottedRun, hc]
          rfl
        rw [hred]
        exact ⟨rfl, DottedShape.nil⟩
      · have hceq : c = '.' := by simpa using hc
        subst hceq
        rcases hempty : (rest.takeWhile isWordChar).isEmpty with _ | _
        · have hred : dottedRun (fuel + 1) ('.' :: rest) =
              ('.' :: (rest.takeWhile isWordChar ++ (dottedRun fuel (rest.dropWhile isWordChar)).1),
               (dottedRun fuel (rest.dropWhile isWordChar)).2) := by
            simp only [dottedRun, hempty]
            rfl
          rw [hred]
          rcases ih (rest.dropWhile isWordChar) with ⟨hsplit, hshape⟩
          constructor
          · show '.' :: (rest.takeWhile isWordChar ++ (dottedRun fuel (rest.dropWhile isWordChar)).1) ++
              (dottedRun fuel (rest.dropWhile isWordChar)).2 = '.' :: rest
            rw [List.cons_append, List.append_assoc, hsplit, List.takeWhile_append_dropWhile]
          · exact DottedShape.cons _ _
              (fun hnil => by rw [hnil] at hempty; exact absurd hempty (by decide))
              (fun c hc => List.mem_takeWhile_imp hc)
              hshape
        · have hred : dottedRun (fuel + 1) ('.' :: rest) = ([], '.' :: rest) := by
            simp only [dottedRun, hempty]
            rfl
          rw [hred]
          exact ⟨rfl, DottedShape.nil⟩

theorem bracketRun_spec : ∀ (fuel : Nat) (cs : List Char),
    (bracketRun fuel cs).1 ++ (bracketRun fuel cs).2 = cs ∧ BracketShape (bracketRun fuel cs).1 := by
  intro fuel
  induction fuel with
  | zero => intro cs; exact ⟨rfl, BracketShape.nil⟩
  | succ fuel ih =>
    intro cs
    rcases cs with _ | ⟨c, rest⟩
    · exact ⟨rfl, BracketShape.nil⟩
    · rcases hc : c == '[' with _ | _
      · have hred : bracketRun (fuel + 1) (c :: rest) = ([], c :: rest) := by
          simp only [bracketRun, hc]
          rfl
        rw [hred]
        exact ⟨rfl, BracketShape.nil⟩
      · have hceq : c = '[' := by simpa using hc
        subst hceq
        rcases hempty : (rest.takeWhile Char.isDigit).isEmpty with _ | _
        · rcases hdrop : rest.dropWhile Char.isDigit with _ | ⟨c2, r2⟩
          · have hred : bracketRun (fuel + 1) ('[' :: rest) = ([], '[' :: rest) := by
              simp only [bracketRun, hempty, hdrop]
              rfl
            rw [hred]
            exact ⟨rfl, BracketShape.nil⟩
          · rcases hc2 : c2 == ']' with _ | _
            · have hred : bracketRun (fuel + 1) ('[' :: rest) = ([], '[' :: rest) := by
                simp only [bracketRun, hempty, hdrop, hc2]
                rfl
              rw [hred]
              exact ⟨rfl, BracketShape.nil⟩
            · have hc2eq : c2 = ']' := by simpa using hc2
              subst hc2eq
              have hred : bracketRun (fuel + 1) ('[' :: rest) =
                  ('[' :: (rest.takeWhile Char.isDigit ++ ']' :: (bracketRun fuel r2).1),
                   (bracketRun fuel r2).2) := by
                simp only [bracketRun, hempty, hdrop]
                rfl
              rw [hred]
              rcases ih r2 with ⟨hsplit, hshape⟩
              constructor
              · show '[' :: (rest.takeWhile Char.isDigit ++ ']' :: (bracketRun fuel r2).1) ++
                  (bracketRun fuel r2).2 = '[' :: rest
                rw [List.cons_append, List.append_assoc, List.cons_append, hsplit,
                  ← hdrop, List.takeWhile_append_dropWhile]
              · exact BracketShape.cons _ _
                  (fun hnil => by rw [hnil] at hempty; exact absurd hempty (by decide))
                  (fun c hc => List.mem_takeWhile_imp hc)
                  hshape
        · rcases hdrop : rest.dropWhile Char.isDigit with _ | ⟨c2, r2⟩
          · have hred : bracketRun (fuel + 1) ('[' :: rest) = ([], '[' :: rest) := by
              simp only [bracketRun, hempty]
              rfl
            rw [hred]
            exact ⟨rfl, BracketShape.nil⟩
          · have hred : bracketRun (fuel + 1) ('[' :: rest) = ([], '[' :: rest) := by
              simp only [bracketRun, hempty]
              rfl
            rw [hred]
            exact ⟨rfl, BracketShape.nil⟩

theorem matchTemplateAt_spec {cs w r : List Char} (h : matchTemplateAt cs = some (w, r)) :
    w ≠ [] ∧ (∀ c ∈ w, isWordChar c) ∧
    ∃ d b, DottedShape d ∧ BracketShape b ∧
      cs = '\x7b' :: '\x7b' :: (w ++ (d ++ (b ++ ('\x7d' :: '\x7d' :: r)))) := by
  rcases cs with _ | ⟨c1, cs1⟩
  · simp [matchTemplateAt] at h
  rcases cs1 with _ | ⟨c2, rest⟩
  · simp [matchTemplateAt] at h
  rcases hbb : (c1 == '\x7b' && c2 == '\x7b') with _ | _
  · rw [matchTemplateAt, hbb] at h
    simp at h
  · have hb : c1 = '\x7b' ∧ c2 = '\x7b' := by
      have := hbb
      simp [Bool.and_eq_true] at this
      exact this
    rcases hb with ⟨rfl, rfl⟩
    rcases hempty : (rest.takeWhile isWordChar).isEmpty with _ | _
    · rw [matchTemplateAt] at h
      simp only [hempty] at h
      rw [if_pos (by decide)] at h
      rw [if_neg (by decide)] at h
      rcases dottedRun_spec (rest.dropWhile isWordChar).length (rest.dropWhile isWordChar)
        with ⟨hd1, hd2⟩
      rcases bracketRun_spec
        (dottedRun (rest.dropWhile isWordChar).length (rest.dropWhile isWordChar)).2.length
        (dottedRun (rest.dropWhile isWordChar).length (rest.dropWhile isWordChar)).2
        with ⟨hb1, hb2⟩
      rcases hp2 : (bracketRun
          (dottedRun (rest.dropWhile isWordChar).length (rest.dropWhile isWordChar)).2.length
          (dottedRun (rest.dropWhile isWordChar).length (rest.dropWhile isWordChar)).2).2
        with _ | ⟨d1, tail⟩
      · rw [hp2] at h
        simp at h
      rcases tail with _ | ⟨d2, r4⟩
      · rw [hp2] at h
        simp at h
      rw [hp2] at h
      rcases hdd : (d1 == '\x7d' && d2 == '\x7d') with _ | _
      · simp only [hdd] at h
        simp at h
      · have hdeq : d1 = '\x7d' ∧ d2 = '\x7d' := by
          have := hdd
          simp [Bool.and_eq_true] at this
          exact this
        rcases hdeq with ⟨rfl, rfl⟩
        simp only [hdd] at h
        rw [if_pos trivial] at h
        have hpair := Option.some.inj h
        have hw : rest.takeWhile isWordChar = w := congrArg Prod.fst hpair
        have hr : r4 = r := congrArg Prod.snd hpair
        subst hw
        subst hr
        refine ⟨?_, ?_, _, _, hd2, hb2, ?_⟩
        · intro hnil
          rw [hnil] at hempty
          exact absurd hempty (by decide)
        · intro c hc
          exact List.mem_takeWhile_imp hc
        · rw [hp2] at hb1
          have hrest : rest = rest.takeWhile isWordChar ++
              ((dottedRun (rest.dropWhile isWordChar).length (rest.dropWhile isWordChar)).1 ++
               ((bracketRun
                  (dottedRun (rest.dropWhile isWordChar).length (rest.dropWhile isWordChar)).2.length
                  (dottedRun (rest.dropWhile isWordChar).length (rest.dropWhile isWordChar)).2).1 ++
                ('\x7d' :: '\x7d' :: r4))) := by
            rw [hb1, hd1, List.takeWhile_append_dropWhile]
          rw [← hrest]
    · rw [matchTemplateAt] at h
      simp only [hempty] at h
      rw [if_pos (by decide)] at h
      rw [if_pos (by decide)] at h
      simp at h

theorem scanTemplatesGo_sound : ∀ (fuel : Nat) (cs : List Char) (name : String),
    name ∈ scanTemplatesGo fuel cs →
    ∃ pre w d b post, w ≠ [] ∧ (∀ c ∈ w, isWordChar c) ∧ DottedShape d ∧ BracketShape b ∧
      name = w.asString ∧
      cs = pre ++ ('\x7b' :: '\x7b' :: (w ++ (d ++ (b ++ ('\x7d' :: '\x7d' :: post))))) := by
  intro fuel
  induction fuel with
  | zero => intro cs name h; simp [scanTemplatesGo] at h
  | succ fuel ih =>
    intro cs name h
    rcases cs with _ | ⟨c, rest⟩
    · simp [scanTemplatesGo] at h
    · have h' : name ∈ (match matchTemplateAt (c :: rest) with
        | some (w, r4) => w.asString :: scanTemplatesGo fuel r4
        | none => scanTemplatesGo fuel rest) := h
      rcases hmt : matchTemplateAt (c :: rest) with _ | ⟨w0, r4⟩
      · rw [hmt] at h'
        rcases ih rest name h' with ⟨pre, w, d, b, post, h1, h2, h3, h4, h5, h6⟩
        exact ⟨c :: pre, w, d, b, post, h1, h2, h3, h4, h5, by rw [List.cons_append, h6]⟩
      · rw [hmt] at h'
        rcases matchTemplateAt_spec hmt with ⟨hw0, hwc0, d0, b0, hd0, hb0, hcs⟩
        rcases List.mem_cons.mp h' with rfl | h''
        · exact ⟨[], w0, d0, b0, r4, hw0, hwc0, hd0, hb0, rfl, by rw [hcs]; rfl⟩
        · rcases ih r4 name h'' with ⟨pre, w, d, b, post, h1, h2, h3, h4, h5, h6⟩
          refine ⟨'\x7b' :: '\x7b' :: (w0 ++ (d0 ++ (b0 ++ ('\x7d' :: '\x7d' :: pre)))), w, d, b,
            post, h1, h2, h3, h4, h5, ?_⟩
          rw [hcs, h6]
          simp [List.append_assoc]

theorem vvrGo_errors_from_refs : ∀ (steps : List Step) (d : List String) (i : Nat)
    (e : ValidationError), e ∈ vvrGo d i steps →
    ∃ s ∈ steps, ∃ name, name ∈ extractTemplateRefs (stringifyInputs s.inputs) ∧
      e.message = varMessage name := by
  intro steps
  induction steps with
  | nil => intro d i e h; simp [vvrGo] at h
  | cons s rest ih =>
    intro d i e h
    rcases List.mem_append.mp h with h | h
    · rcases stepVarErrors_shape h with ⟨n, hn, _, he⟩
      exact ⟨s, List.mem_cons_self s rest, n, hn, by rw [he]; rfl⟩
    · rcases ih _ _ _ h with ⟨t, ht, n, hn, hm⟩
      exact ⟨t, List.mem_cons_of_mem s ht, n, hn, hm⟩

/-- C10: every identifier extracted by the dataflow pass comes from a
substring of the serialized inputs that matches the template grammar
exactly — `\x7b\x7b` identifier (`.`identifier)* (`[`digits`]`)* `\x7d\x7d`
with word-character identifiers — and every unbound-variable diagnostic
names such an extracted identifier; placeholders outside the grammar (a
hyphenated name, internal whitespace, a bracket index before a dotted
access) are never extracted and hence never flagged. -/
theorem c10_template_reference_grammar :
    (∀ (s : String) (name : String), name ∈ extractTemplateRefs s →
      ∃ pre w d b post, w ≠ [] ∧ (∀ c ∈ w, isWordChar c) ∧ DottedShape d ∧ BracketShape b ∧
        name = w.asString ∧
        s.data = pre ++ ('\x7b' :: '\x7b' :: (w ++ (d ++ (b ++ ('\x7d' :: '\x7d' :: post)))))) ∧
    (∀ (steps : List Step) (e : ValidationError),
      e ∈ (validateVariableReferences steps).errors →
      ∃ s ∈ steps, ∃ name, name ∈ extractTemplateRefs (stringifyInputs s.inputs) ∧
        e.message = varMessage name) ∧
    extractTemplateRefs "\x7b\x7ba-b\x7d\x7d" = [] ∧
    extractTemplateRefs "\x7b\x7b r \x7d\x7d" = [] ∧
    extractTemplateRefs "\x7b\x7br[0].x\x7d\x7d" = [] ∧
    (validateVariableReferences
      [{ id := "s1", module := "m.m.f",
         inputs := [("a", .str "\x7b\x7ba-b\x7d\x7d"), ("b", .str "\x7b\x7b r \x7d\x7d"),
                    ("c", .str "\x7b\x7br[0].x\x7d\x7d")],
         outputAs := none }]).errors = [] :=
  ⟨fun s name h => scanTemplatesGo_sound s.data.length s.data name h,
   fun steps e h => vvrGo_errors_from_refs steps initialVars 0 e h,
   by decide, by decide, by decide, by decide⟩

/-- Witness for C10: the extraction on `x\x7b\x7bok\x7d\x7d` returns
`ok`, and the soundness part exhibits the grammar decomposition. -/
theorem c10_template_reference_grammar_witness :
    ∃ pre w d b post, w ≠ [] ∧ (∀ c ∈ w, isWordChar c) ∧ DottedShape d ∧ BracketShape b ∧
      "ok" = w.asString ∧
      ("x\x7b\x7bok\x7d\x7d" : String).data =
        pre ++ ('\x7b' :: '\x7b' :: (w ++ (d ++ (b ++ ('\x7d' :: '\x7d' :: post))))) :=
  c10_template_reference_grammar.1 "x\x7b\x7bok\x7d\x7d" "ok" (by decide)
